/-
Verification of the minishelf local store, record repository,
keyword normalization and synchronization engine.

The definitions below are a shallow embedding of the client-side core:
  - src/client/src/utils/keywords.ts        (parseKeywords / normalizeKeywords)
  - src/client/src/components/SearchSection.tsx
      (the embedded database module: initDatabase, saveDatabase,
       createMiniature, getAllMiniatures, getMiniature, updateMiniature,
       deleteMiniature, exportDatabaseAsJSON, createTemporaryDatabase,
       insertMiniaturesIntoDatabase, replaceDatabaseWith)
  - src/client/src/components/Synchronize.tsx  (handleLink / handleSync)

The sql.js database is modelled at the row level: a database instance is the
list of rows of the single `miniatures` table, in insertion order.  IndexedDB
persistence is a single optional snapshot value; localStorage flags are plain
fields of the application state.  All strings handled by the repository are
modelled over the ASCII fragment, on which the JavaScript string operations
used by the source (toLowerCase, trim) agree with SQLite LOWER and with the
character-level functions defined here.
-/
import Mathlib

namespace Minishelf

/-! ## Character-level utilities shared by the string operations -/

/-- Whitespace characters: the model of the regex class `\s` and of the
characters stripped by `String.prototype.trim`, restricted to the ASCII
whitespace actually produced by the application's inputs. -/
def isWs (c : Char) : Bool := c = ' ' || c = '\t' || c = '\n' || c = '\r'

/-- ASCII lower casing of one character: the model of JavaScript
`toLowerCase` (and of SQLite `LOWER`, which agrees with it on ASCII). -/
def lowerChar (c : Char) : Char :=
  if 65 ≤ c.toNat && c.toNat ≤ 90 then Char.ofNat (c.toNat + 32) else c

/-- Lower casing of a character list. -/
def lowerChars (l : List Char) : List Char := l.map lowerChar

/-- Lower casing of a string. -/
def lowerStr (s : String) : String := String.mk (lowerChars s.data)

/-- Drop trailing whitespace (the right half of `trim`). -/
def dropTrailingWs : List Char → List Char
  | [] => []
  | c :: cs =>
    match dropTrailingWs cs with
    | [] => if isWs c then [] else [c]
    | r => c :: r

/-- Model of `String.prototype.trim`: drop leading and trailing whitespace. -/
def trimChars (l : List Char) : List Char := dropTrailingWs (l.dropWhile isWs)

/-- Model of `String.prototype.trim` at the string level. -/
def jsTrim (s : String) : String := String.mk (trimChars s.data)

/-! ## Keyword normalization (src/client/src/utils/keywords.ts) -/

/-- Separator characters of the split regex `[,;]+` in `parseKeywords`. -/
def isSep (c : Char) : Bool := c = ',' || c = ';'

/-- Splitting at separator characters.  The regex quantifier `+` merges
adjacent separators; splitting at every separator instead only produces
extra empty parts, which the empty-tag filter below discards. -/
def splitSeps : List Char → List (List Char)
  | [] => [[]]
  | c :: cs =>
    if isSep c then [] :: splitSeps cs
    else
      match splitSeps cs with
      | [] => [[c]]
      | p :: ps => (c :: p) :: ps

/-- Characters kept by the filter `replace(/[^a-z0-9\s-]/g, '')`. -/
def isAllowed (c : Char) : Bool :=
  (97 ≤ c.toNat && c.toNat ≤ 122) || (48 ≤ c.toNat && c.toNat ≤ 57) ||
  isWs c || c.toNat = 45

/-- Model of `replace(/\s+/g, ' ')`: every maximal whitespace run becomes a
single space. -/
def collapseWs : List Char → List Char
  | [] => []
  | [c] => [if isWs c then ' ' else c]
  | c₁ :: c₂ :: cs =>
    if isWs c₁ && isWs c₂ then collapseWs (c₂ :: cs)
    else (if isWs c₁ then ' ' else c₁) :: collapseWs (c₂ :: cs)

/-- The per-part processing in the `parseKeywords` loop: trim and lower-case,
strip disallowed characters, collapse whitespace runs, trim again. -/
def cleanTag (p : List Char) : List Char :=
  trimChars (collapseWs ((lowerChars (trimChars p)).filter isAllowed))

/-- First-occurrence deduplication with an explicit seen set, as in the
source's `Set`-based loop. -/
def dedupTags (seen : List (List Char)) : List (List Char) → List (List Char)
  | [] => []
  | t :: ts =>
    if seen.contains t then dedupTags seen ts
    else t :: dedupTags (t :: seen) ts

/-- Character-level core of `parseKeywords`: split on separators, clean each
part, drop empty parts, deduplicate keeping first occurrences. -/
def parseKeywordsL (input : List Char) : List (List Char) :=
  dedupTags [] (((splitSeps input).map cleanTag).filter (fun t => !t.isEmpty))

/-- Model of `parseKeywords` (keywords.ts): the guard on the empty string is
kept from the source, although it returns the same value as the main path. -/
def parseKeywords (input : String) : List String :=
  if input.isEmpty then []
  else (parseKeywordsL input.data).map String.mk

/-- Model of `Array.prototype.join(", ")` on tag lists. -/
def joinTags : List (List Char) → List Char
  | [] => []
  | [t] => t
  | t :: ts => t ++ ',' :: ' ' :: joinTags ts

/-- Character-level core of `normalizeKeywords`. -/
def normalizeKeywordsL (input : List Char) : List Char :=
  joinTags (parseKeywordsL input)

/-- Model of `normalizeKeywords` (keywords.ts): parse and join with a comma
and a space. -/
def normalizeKeywords (input : String) : String :=
  String.mk (normalizeKeywordsL input.data)

/-! ## Auxiliary predicates describing canonical tags (used in theorems) -/

/-- Adjacent-pair condition: no two consecutive whitespace characters. -/
def noWsPair : List Char → Bool
  | c₁ :: c₂ :: cs => !(isWs c₁ && isWs c₂) && noWsPair (c₂ :: cs)
  | _ => true

/-- Characters of a canonical tag: lower-case letter, digit, hyphen
(code 45) or a single space. -/
def isCanonChar (c : Char) : Bool :=
  (97 ≤ c.toNat && c.toNat ≤ 122) || (48 ≤ c.toNat && c.toNat ≤ 57) ||
  c.toNat = 45 || c = ' '

/-! ## The record type and the repository (SearchSection.tsx database module)

A sql.js database instance is modelled as the list of rows of the single
miniatures table, in insertion order.  The `embedding` column is nullable
and holds the serialized JSON text of the embedding array; the serialization
itself is kept abstract as the stored string. -/

structure Miniature where
  id : String
  game : String
  name : String
  amount : Int
  painted : Bool
  keywords : String
  embedding : Option String
  image_data : String
  created_at : String
  updated_at : String
deriving DecidableEq, Repr

/-- Persisted snapshot blob in IndexedDB under the sqliteDb key: either a
well-formed database export holding the given rows, or bytes that fail to
open in the sql.js constructor. -/
inductive DbSnapshot
  | valid (rows : List Miniature)
  | corrupt
deriving DecidableEq, Repr

/-- Process-wide application state: the live in-memory database, the
IndexedDB snapshot, the localStorage flags, and the trace of isDirtyChanged
notifications dispatched on window (payload of each event). -/
structure AppState where
  db : List Miniature
  saved : Option DbSnapshot
  isDirty : Bool
  syncUrl : Option String
  notifications : List Bool
deriving DecidableEq, Repr

/-- Model of JavaScript `x || d` on an optional string: null, undefined and
the empty string are falsy and give the default. -/
def strOr (o : Option String) (d : String) : String :=
  match o with
  | none => d
  | some s => if s.data.isEmpty then d else s

/-- Model of JavaScript `x || 1` on an optional number: null, undefined and
0 are falsy and give 1. -/
def amountOrOne (o : Option Int) : Int :=
  match o with
  | none => 1
  | some a => if a = 0 then 1 else a

/-- Model of `saveDatabase`: write the snapshot, set the dirty flag in
localStorage, dispatch an isDirtyChanged event with detail true. -/
def saveDatabase (s : AppState) : AppState :=
  { s with saved := some (.valid s.db), isDirty := true,
           notifications := s.notifications ++ [true] }

/-- Partial record supplied to `createMiniature`. -/
structure NewMiniature where
  id : Option String := none
  game : Option String := none
  name : Option String := none
  amount : Option Int := none
  painted : Option Bool := none
  keywords : Option String := none
  image_data : Option String := none
deriving DecidableEq, Repr

/-- Model of `createMiniature`: default the fields, insert (the INSERT does
not mention the embedding column, so it is NULL), then saveDatabase and
return the id.  Violating the primary key makes the INSERT throw, which
propagates to the caller before any save. -/
def createMiniature (fresh now : String) (m : NewMiniature) (s : AppState) :
    Except String (AppState × String) :=
  let id := strOr m.id fresh
  let row : Miniature :=
    { id := id, game := strOr m.game "", name := strOr m.name "",
      amount := amountOrOne m.amount, painted := m.painted.getD false,
      keywords := strOr m.keywords "", embedding := none,
      image_data := strOr m.image_data "", created_at := now, updated_at := now }
  if s.db.any (fun r => r.id == id) then
    .error "UNIQUE constraint failed: miniatures.id"
  else
    .ok (saveDatabase { s with db := s.db ++ [row] }, id)

/-! ## Search (getAllMiniatures) -/

/-- Splitting at commas: the model of `split(',')` in the search filter. -/
def splitComma : List Char → List (List Char)
  | [] => [[]]
  | c :: cs =>
    if c = ',' then [] :: splitComma cs
    else
      match splitComma cs with
      | [] => [[c]]
      | p :: ps => (c :: p) :: ps

/-- Search terms of a search string: lower-case, split on commas, trim each
part, drop empty parts. -/
def searchTerms (search : String) : List (List Char) :=
  ((splitComma (lowerChars search.data)).map trimChars).filter (fun t => !t.isEmpty)

/-- Does any suffix of the text satisfy the continuation?  Used to interpret
a percent wildcard, which matches an arbitrary prefix of the text. -/
def anySuffix (f : List Char → Bool) : List Char → Bool
  | [] => f []
  | c :: cs => f (c :: cs) || anySuffix f cs

/-- SQLite LIKE matching of a pattern against a text.  A percent sign
matches any sequence, an underscore matches exactly one character, any other
pattern character matches itself.  LIKE compares ASCII case-insensitively;
here both the pattern (the lower-cased search term) and the text (the
LOWER-ed column) are already lower case, so plain equality is the correct
comparison. -/
def likeMatch : List Char → List Char → Bool
  | [], t => t.isEmpty
  | p :: ps, t =>
    if p = '%' then anySuffix (likeMatch ps) t
    else
      match t with
      | [] => false
      | c :: ts => (p = '_' || p == c) && likeMatch ps ts

/-- The LIKE parameter built for a search term: a percent sign on each side. -/
def likePat (t : List Char) : List Char := '%' :: t ++ ['%']

/-- One search-term condition of the WHERE clause:
LOWER(keywords) LIKE pat OR LOWER(game) LIKE pat OR LOWER(name) LIKE pat. -/
def rowMatchesTerm (m : Miniature) (t : List Char) : Bool :=
  likeMatch (likePat t) (lowerChars m.keywords.data) ||
  likeMatch (likePat t) (lowerChars m.game.data) ||
  likeMatch (likePat t) (lowerChars m.name.data)

/-- Optional filters of `getAllMiniatures`. -/
structure Filters where
  search : Option String := none
  game : Option String := none
  painted : Option Bool := none
deriving DecidableEq, Repr

/-- The WHERE clause of `getAllMiniatures`: a game condition when the game
filter is truthy (non-empty), a painted condition when the painted filter is
present, and the conjunction of the per-term search conditions when the
search filter is truthy. -/
def matchesFilters (f : Filters) (m : Miniature) : Bool :=
  (match f.game with
   | some g => g.data.isEmpty || m.game == g
   | none => true) &&
  (match f.painted with
   | some b => m.painted == b
   | none => true) &&
  (match f.search with
   | some q => q.data.isEmpty || (searchTerms q).all (rowMatchesTerm m)
   | none => true)

/-- Model of `getAllMiniatures`: the rows satisfying the WHERE clause.  The
ORDER BY created_at DESC of the source is not modelled: the claims below are
about the returned record set, and SQLite leaves the relative order of rows
with equal created_at unspecified. -/
def getAllMiniatures (db : List Miniature) (f : Filters) : List Miniature :=
  db.filter (matchesFilters f)

/-- Model of `getMiniature`: the row with the given id, if any. -/
def getMiniature (id : String) (db : List Miniature) : Option Miniature :=
  db.find? (fun r => r.id == id)

/-- Substring occurrence: does the needle occur contiguously in the hay?
This is the comparison predicate used by the claim wording for the search
filter (a term occurs as a substring of a field). -/
def substrOf (needle : List Char) : List Char → Bool
  | [] => needle.isPrefixOf []
  | c :: t => needle.isPrefixOf (c :: t) || substrOf needle t

/-- Modelled from the claim wording for comparison: a record matches a term
when the term occurs as a substring of the lower-cased keywords, game or
name field. -/
def specTermHits (m : Miniature) (t : List Char) : Bool :=
  substrOf t (lowerChars m.keywords.data) ||
  substrOf t (lowerChars m.game.data) ||
  substrOf t (lowerChars m.name.data)

/-- Modelled from the claim wording for comparison: the records for which
every search term occurs as a substring of some field. -/
def specSearch (db : List Miniature) (q : String) : List Miniature :=
  db.filter (fun m => (searchTerms q).all (specTermHits m))

/-- A term without LIKE wildcard characters. -/
def noWildcard (t : List Char) : Bool :=
  t.all (fun c => !(c = '%') && !(c = '_'))

/-! ## Partial update (updateMiniature) -/

/-- Partial field set supplied to `updateMiniature`; the embedding field
holds the JSON serialization that the source computes before binding. -/
structure MiniatureUpdates where
  game : Option String := none
  name : Option String := none
  amount : Option Int := none
  painted : Option Bool := none
  keywords : Option String := none
  embedding : Option String := none
  image_data : Option String := none
deriving DecidableEq, Repr

/-- One column assignment of the dynamically built UPDATE statement. -/
inductive ColSet
  | setGame (v : String)
  | setName (v : String)
  | setAmount (v : Int)
  | setPainted (v : Bool)
  | setKeywords (v : String)
  | setEmbedding (v : String)
  | setImageData (v : String)
  | setUpdatedAt (v : String)
deriving DecidableEq, Repr

/-- The assignment list built by `updateMiniature`: one assignment per
supplied field, in source order, always followed by updated_at. -/
def buildSets (u : MiniatureUpdates) (now : String) : List ColSet :=
  (match u.game with | some v => [.setGame v] | none => []) ++
  (match u.name with | some v => [.setName v] | none => []) ++
  (match u.amount with | some v => [.setAmount v] | none => []) ++
  (match u.painted with | some v => [.setPainted v] | none => []) ++
  (match u.keywords with | some v => [.setKeywords v] | none => []) ++
  (match u.embedding with | some v => [.setEmbedding v] | none => []) ++
  (match u.image_data with | some v => [.setImageData v] | none => []) ++
  [.setUpdatedAt now]

/-- Apply one column assignment to a row. -/
def applySet (r : Miniature) : ColSet → Miniature
  | .setGame v => { r with game := v }
  | .setName v => { r with name := v }
  | .setAmount v => { r with amount := v }
  | .setPainted v => { r with painted := v }
  | .setKeywords v => { r with keywords := v }
  | .setEmbedding v => { r with embedding := some v }
  | .setImageData v => { r with image_data := v }
  | .setUpdatedAt v => { r with updated_at := v }

/-- Apply the whole SET list of the UPDATE to a row. -/
def applyUpdates (u : MiniatureUpdates) (now : String) (r : Miniature) : Miniature :=
  (buildSets u now).foldl applySet r

/-- Model of `updateMiniature`: the UPDATE rewrites every row whose id
matches (at most one, ids being the primary key), then saveDatabase runs. -/
def updateMiniature (now : String) (id : String) (u : MiniatureUpdates)
    (s : AppState) : AppState :=
  saveDatabase { s with db := s.db.map (fun r => if r.id = id then applyUpdates u now r else r) }

/-- Model of `deleteMiniature`: DELETE by id, then saveDatabase. -/
def deleteMiniature (id : String) (s : AppState) : AppState :=
  saveDatabase { s with db := s.db.filter (fun r => r.id != id) }

/-! ## Synchronization engine (Synchronize.tsx and the database helpers) -/

/-- Fields of a record-like JSON object in the remote document. -/
structure EntryFields where
  id : Option String := none
  game : Option String := none
  name : Option String := none
  amount : Option Int := none
  painted : Option Bool := none
  keywords : Option String := none
  image_data : Option String := none
  created_at : Option String := none
  updated_at : Option String := none
deriving DecidableEq, Repr

/-- One element of the remote document's array.  A non-object element is
inserted with every field defaulted (property reads on it give undefined);
a null element makes the trial insertion throw a TypeError on reading m.id. -/
inductive Entry
  | obj (f : EntryFields)
  | scalar
  | nullish
deriving DecidableEq, Repr

/-- Insert one row, enforcing the primary key as sql.js does. -/
def insertRow (rows : List Miniature) (r : Miniature) : Except String (List Miniature) :=
  if rows.any (fun x => x.id == r.id) then
    .error "UNIQUE constraint failed: miniatures.id"
  else
    .ok (rows ++ [r])

/-- The per-entry statement run of `insertMiniaturesIntoDatabase`: default
the fields (note the amount uses the nullish-coalescing default, keeping an
explicit 0), and insert.  The temporary schema has no embedding column. -/
def insertEntryFields (rows : List Miniature) (f : EntryFields) (fresh now : String) :
    Except String (List Miniature) :=
  insertRow rows
    { id := strOr f.id fresh, game := strOr f.game "", name := strOr f.name "",
      amount := f.amount.getD 1, painted := f.painted.getD false,
      keywords := strOr f.keywords "", embedding := none,
      image_data := strOr f.image_data "",
      created_at := strOr f.created_at now, updated_at := strOr f.updated_at now }

/-- Trial insertion of one entry. -/
def insertEntryInto (rows : List Miniature) (e : Entry) (fresh now : String) :
    Except String (List Miniature) :=
  match e with
  | .nullish => .error "TypeError: Cannot read properties of null"
  | .scalar => insertEntryFields rows {} fresh now
  | .obj f => insertEntryFields rows f fresh now

/-- The insertion loop: abort at the first failing entry.  The fresh
identifiers drawn from crypto.randomUUID are modelled as an arbitrary
supply indexed by entry position. -/
def insertAll (uuids : Nat → String) (now : String) :
    List Miniature → List Entry → Nat → Except String (List Miniature)
  | rows, [], _ => .ok rows
  | rows, e :: es, i =>
    match insertEntryInto rows e (uuids i) now with
    | .error msg => .error msg
    | .ok rows' => insertAll uuids now rows' es (i + 1)

/-- Model of `insertMiniaturesIntoDatabase` on a database instance holding
the given rows: it touches only that instance. -/
def insertMiniaturesIntoDatabase (tmp : List Miniature) (es : List Entry)
    (uuids : Nat → String) (now : String) : Except String (List Miniature) :=
  insertAll uuids now tmp es 0

/-- Model of `replaceDatabaseWith`: the live in-memory instance becomes a
copy of the temporary one, the snapshot is persisted, the dirty flag is
cleared and an isDirtyChanged event with detail false is dispatched. -/
def replaceDatabaseWith (tmpRows : List Miniature) (s : AppState) : AppState :=
  { s with db := tmpRows, saved := some (.valid tmpRows), isDirty := false,
           notifications := s.notifications ++ [false] }

/-- A JSON value sitting in a field of the fetched document: an array of
entries, or anything that is not an array. -/
inductive JVal
  | arrOf (entries : List Entry)
  | nonArray
deriving DecidableEq, Repr

/-- The fetched JSON document: a bare array, an object with its fields, or a
primitive (on which optional-chained property reads give undefined). -/
inductive JsonDoc
  | arr (entries : List Entry)
  | obj (fields : List (String × JVal))
  | prim
deriving DecidableEq, Repr

/-- The shape check shared by handleLink and handleSync:
Array.isArray(data) ? data : data?.miniatures, then Array.isArray again. -/
def extractMiniatures (d : JsonDoc) : Option (List Entry) :=
  match d with
  | .arr es => some es
  | .obj fs =>
    match fs.lookup "miniatures" with
    | some (.arrOf es) => some es
    | _ => none
  | .prim => none

/-- Modelled from the claim wording for comparison in C5: a document is
accepted when it is a bare array, or an object with a records array field,
or an object with a miniatures array field. -/
def specAccepts (d : JsonDoc) : Bool :=
  match d with
  | .arr _ => true
  | .obj fs =>
    (match fs.lookup "records" with | some (.arrOf _) => true | _ => false) ||
    (match fs.lookup "miniatures" with | some (.arrOf _) => true | _ => false)
  | .prim => false

/-- Outcome of the proxy fetch of the remote document. -/
inductive FetchOutcome
  | httpError
  | jsonError
  | ok (d : JsonDoc)
deriving DecidableEq, Repr

/-- Outcome reported by handleSync. -/
inductive SyncOutcome
  | noUrl
  | cancelled
  | fetchFailed
  | badShape
  | insertFailed
  | success (count : Nat)
deriving DecidableEq, Repr

/-- Model of `handleSync`: the url guard, the dirty-confirmation guard, the
fetch, the shape check, the trial insertion into a fresh schema-initialized
temporary instance, and only then the wholesale replacement.  The best-effort
second clearing of the dirty flag after replaceDatabaseWith rewrites the
value replaceDatabaseWith just stored and is absorbed by it. -/
def handleSync (hasUrl proceed : Bool) (fetched : FetchOutcome)
    (uuids : Nat → String) (now : String) (s : AppState) : AppState × SyncOutcome :=
  if !hasUrl then (s, .noUrl)
  else if s.isDirty && !proceed then (s, .cancelled)
  else
    match fetched with
    | .httpError => (s, .fetchFailed)
    | .jsonError => (s, .fetchFailed)
    | .ok d =>
      match extractMiniatures d with
      | none => (s, .badShape)
      | some es =>
        match insertMiniaturesIntoDatabase [] es uuids now with
        | .error _ => (s, .insertFailed)
        | .ok tmpRows => (replaceDatabaseWith tmpRows s, .success es.length)

/-- Outcome reported by handleLink. -/
inductive LinkOutcome
  | emptyUrl
  | invalidUrl
  | fetchFailed
  | badShape
  | validationFailed
  | linked
deriving DecidableEq, Repr

/-- Model of `handleLink`: validate the url, fetch, shape-check, trial-insert
into a temporary instance; on success persist the url, set the dirty flag
and dispatch the corresponding event.  No branch touches the live database. -/
def handleLink (url : String) (urlValid : Bool) (fetched : FetchOutcome)
    (uuids : Nat → String) (now : String) (s : AppState) : AppState × LinkOutcome :=
  if url.data.isEmpty then (s, .emptyUrl)
  else if !urlValid then (s, .invalidUrl)
  else
    match fetched with
    | .httpError => (s, .fetchFailed)
    | .jsonError => (s, .fetchFailed)
    | .ok d =>
      match extractMiniatures d with
      | none => (s, .badShape)
      | some es =>
        match insertMiniaturesIntoDatabase [] es uuids now with
        | .error _ => (s, .validationFailed)
        | .ok _ =>
          ({ s with syncUrl := some url, isDirty := true,
                    notifications := s.notifications ++ [true] }, .linked)

/-- The failure conditions of claim C1 on a synchronization attempt: the
fetched body is not JSON, or the document is not an accepted shape, or some
entry (the first failing one, at any position) fails its trial insertion. -/
def syncAttemptFails (fetched : FetchOutcome) (uuids : Nat → String) (now : String) : Prop :=
  fetched = .jsonError ∨
  (∃ d, fetched = .ok d ∧ extractMiniatures d = none) ∨
  (∃ d es msg, fetched = .ok d ∧ extractMiniatures d = some es ∧
      insertMiniaturesIntoDatabase [] es uuids now = .error msg)

/-! ## Startup (initDatabase) -/

/-- The fatal startup failure: the sql.js wasm runtime did not load. -/
inductive InitError
  | wasmLoadFailed
deriving DecidableEq, Repr

/-- Model of `initDatabase`.  Inputs: whether the wasm runtime loads,
whether the IndexedDB read throws (caught: treated as no snapshot), and
whether the final best-effort save throws (caught: init still succeeds).
A snapshot that fails to open is cleared from IndexedDB and replaced by a
fresh empty database.  Schema creation (CREATE TABLE and CREATE INDEX with
IF NOT EXISTS, plus the caught embedding-column migration) is idempotent
and adds no rows, so it leaves the row-level state unchanged; its one-shot
fresh-database retry is unreachable in this model. -/
def initDatabase (sqlJsOk readFails saveFails : Bool) (s : AppState) :
    Except InitError AppState :=
  if !sqlJsOk then .error .wasmLoadFailed
  else
    let savedDb : Option DbSnapshot := if readFails then none else s.saved
    let s₁ :=
      match savedDb with
      | some (.valid rows) => { s with db := rows }
      | some .corrupt => { s with db := [], saved := none }
      | none => { s with db := [] }
    if saveFails then .ok s₁ else .ok { s₁ with saved := some (.valid s₁.db) }

/-! ## Export (exportDatabaseAsJSON) -/

/-- Hexadecimal digit of a value below 16, lower case as in JSON.stringify. -/
def hexDigit (n : Nat) : Char :=
  if n < 10 then Char.ofNat (48 + n) else Char.ofNat (87 + n)

/-- JSON string escaping of one character, as produced by JSON.stringify. -/
def escChar (c : Char) : List Char :=
  if c = '"' then ['\\', '"']
  else if c = '\\' then ['\\', '\\']
  else if c = '\n' then ['\\', 'n']
  else if c = '\r' then ['\\', 'r']
  else if c = '\t' then ['\\', 't']
  else if c.toNat = 8 then ['\\', 'b']
  else if c.toNat = 12 then ['\\', 'f']
  else if c.toNat < 32 then ['\\', 'u', '0', '0', hexDigit (c.toNat / 16), hexDigit (c.toNat % 16)]
  else [c]

/-- JSON serialization of a string value. -/
def jsonStr (s : String) : String :=
  String.mk ('"' :: (s.data.map escChar).flatten ++ ['"'])

/-- Join strings with a separator, as Array.prototype.join does. -/
def joinStrs (sep : String) : List String → String
  | [] => ""
  | [s] => s
  | s :: ss => s ++ sep ++ joinStrs sep ss

/-- The key-value lines of one serialized record, in the property order of
the objects built by getAllMiniatures.  An absent embedding is undefined and
JSON.stringify omits it; a present embedding is the parsed array, whose
serialization is kept abstract as the stored string. -/
def miniObjFields (m : Miniature) : List String :=
  ["\"id\": " ++ jsonStr m.id,
   "\"game\": " ++ jsonStr m.game,
   "\"name\": " ++ jsonStr m.name,
   "\"amount\": " ++ toString m.amount,
   "\"painted\": " ++ (if m.painted then "true" else "false"),
   "\"keywords\": " ++ jsonStr m.keywords] ++
  (match m.embedding with
   | some e => ["\"embedding\": " ++ e]
   | none => []) ++
  ["\"image_data\": " ++ jsonStr m.image_data,
   "\"created_at\": " ++ jsonStr m.created_at,
   "\"updated_at\": " ++ jsonStr m.updated_at]

/-- One record pretty-printed at array depth, as JSON.stringify with indent
2 lays it out. -/
def miniObjPretty (m : Miniature) : String :=
  "\x7b\n" ++ joinStrs ",\n" ((miniObjFields m).map (fun f => "    " ++ f)) ++ "\n  \x7d"

/-- Model of `exportDatabaseAsJSON`: JSON.stringify(getAllMiniatures(), null, 2). -/
def exportDatabaseAsJSON (db : List Miniature) : String :=
  if (getAllMiniatures db {}).isEmpty then "[]"
  else
    "[\n" ++
      joinStrs ",\n" ((getAllMiniatures db {}).map (fun m => "  " ++ miniObjPretty m)) ++
      "\n]"

/-- Modelled from the claim wording for comparison in C9: the pretty-printed
export document with a records wrapper, on an empty record set (this is the
exact output of JSON.stringify on an object with an empty records array). -/
def specExportRecordsEmpty : String := "\x7b\n  \"records\": []\n\x7d"

/-- Lexicographic order on character lists by code point: the model of the
JavaScript string order, under which ISO-8601 timestamps compare
chronologically. -/
def lexLt : List Char → List Char → Bool
  | [], [] => false
  | [], _ :: _ => true
  | _ :: _, [] => false
  | a :: as, b :: bs => a.toNat < b.toNat || (a.toNat = b.toNat && lexLt as bs)

/-- Strict order on timestamp strings. -/
def tsLt (a b : String) : Bool := lexLt a.data b.data

/-! ## Concrete demonstration values used by counterexamples and witnesses -/

/-- A blank row with the given id and keywords. -/
def mkRow (id keywords game name : String) : Miniature :=
  { id := id, game := game, name := name, amount := 1, painted := false,
    keywords := keywords, embedding := none, image_data := "",
    created_at := "", updated_at := "" }

/-- Record R1 of property P3: keywords sword. -/
def searchR1 : Miniature := mkRow "r1" "sword" "" ""

/-- Record R2 of property P3: game Warhammer. -/
def searchR2 : Miniature := mkRow "r2" "" "Warhammer" ""

/-- Record R3 of property P3: keywords sword and game Warhammer. -/
def searchR3 : Miniature := mkRow "r3" "sword" "Warhammer" ""

/-- A row whose keywords field is xyz, for the wildcard counterexample. -/
def cexRow : Miniature := mkRow "x" "xyz" "" ""

/-- A state holding one row with a fixed timestamp, for the update-timestamp
counterexample. -/
def demoRow : Miniature :=
  { id := "a", game := "g", name := "n", amount := 1, painted := false,
    keywords := "k", embedding := none, image_data := "",
    created_at := "2024-01-01T00:00:00.000Z", updated_at := "2024-01-01T00:00:00.000Z" }

/-- The state holding exactly demoRow, marked clean. -/
def demoState : AppState :=
  { db := [demoRow], saved := some (.valid [demoRow]), isDirty := false,
    syncUrl := none, notifications := [] }

/-- The empty clean state. -/
def emptyState : AppState :=
  { db := [], saved := none, isDirty := false, syncUrl := none, notifications := [] }

/-- A fetched document wrapping its entries in a records field. -/
def recordsDoc : JsonDoc := .obj [("records", .arrOf [])]

/-- A remote entry carrying an explicit amount of 0. -/
def amountZeroEntry : Entry :=
  .obj { id := some "z", amount := some (0 : Int) }

/-- A row used by the export demonstration. -/
def exportDemoRow : Miniature :=
  { id := "a", game := "g", name := "n", amount := 2, painted := true,
    keywords := "k", embedding := none, image_data := "d",
    created_at := "c", updated_at := "u" }

/-! # Theorems -/

/-! ## C1: synchronization failure leaves the live store untouched -/

theorem handleSync_fst_of_fails (hasUrl proceed : Bool) (fetched : FetchOutcome)
    (uuids : Nat → String) (now : String) (s : AppState)
    (h : syncAttemptFails fetched uuids now) :
    (handleSync hasUrl proceed fetched uuids now s).1 = s := by
  cases hasUrl with
  | false => rfl
  | true =>
    cases h2 : (s.isDirty && !proceed) with
    | true => simp [handleSync, h2]
    | false =>
      rcases h with h | ⟨d, hd, he⟩ | ⟨d, es, msg, hd, he, hi⟩
      · subst h; simp [handleSync, h2]
      · subst hd; simp [handleSync, h2, he]
      · subst hd; simp [handleSync, h2, he, hi]

/-- C1: for every synchronize attempt in which the fetched document fails to
parse, is not an accepted shape, or has some entry whose trial insertion
fails, the live store is untouched: trial insertions only ever build a
separate temporary row list, the live database and the persisted snapshot
are unchanged, and list() returns exactly the pre-sync record set. -/
theorem sync_failure_preserves_live_store (hasUrl proceed : Bool)
    (fetched : FetchOutcome) (uuids : Nat → String) (now : String) (s : AppState)
    (h : syncAttemptFails fetched uuids now) :
    (handleSync hasUrl proceed fetched uuids now s).1 = s ∧
    (handleSync hasUrl proceed fetched uuids now s).1.db = s.db ∧
    (handleSync hasUrl proceed fetched uuids now s).1.saved = s.saved ∧
    ∀ f : Filters,
      getAllMiniatures (handleSync hasUrl proceed fetched uuids now s).1.db f
        = getAllMiniatures s.db f := by
  have hst := handleSync_fst_of_fails hasUrl proceed fetched uuids now s h
  exact ⟨hst, by rw [hst], by rw [hst], fun f => by rw [hst]⟩

/-- Closed instance of C1: a document whose first entry is null fails its
trial insertion, and the synchronize attempt leaves the demonstration state
exactly as it was. -/
theorem sync_failure_preserves_live_store_witness :
    (handleSync true true (.ok (.arr [.nullish])) (fun _ => "u") "T" demoState).1
      = demoState ∧
    (handleSync true true (.ok (.arr [.nullish])) (fun _ => "u") "T" demoState).1.db
      = demoState.db ∧
    (handleSync true true (.ok (.arr [.nullish])) (fun _ => "u") "T" demoState).1.saved
      = demoState.saved ∧
    ∀ f : Filters,
      getAllMiniatures
        (handleSync true true (.ok (.arr [.nullish])) (fun _ => "u") "T" demoState).1.db f
        = getAllMiniatures demoState.db f :=
  sync_failure_preserves_live_store true true (.ok (.arr [.nullish]))
    (fun _ => "u") "T" demoState
    (Or.inr (Or.inr ⟨.arr [.nullish], [.nullish],
      "TypeError: Cannot read properties of null", rfl, rfl, rfl⟩))

/-! ## C4: corrupt snapshot recovery -/

/-- C4: when the persisted snapshot exists but cannot be opened,
initialization completes without throwing, the stored snapshot is discarded
from durable storage (and, when the final best-effort save succeeds,
replaced by a fresh empty one), and the resulting store is empty and
usable: list() is empty and a subsequent create succeeds. -/
theorem corrupt_snapshot_recovery (saveFails : Bool) (s : AppState)
    (h : s.saved = some .corrupt) :
    ∃ s', initDatabase true false saveFails s = .ok s' ∧
      s'.db = [] ∧
      s'.saved = (if saveFails then none else some (.valid [])) ∧
      (∀ f, getAllMiniatures s'.db f = []) ∧
      (∀ fresh now m, ∃ out, createMiniature fresh now m s' = .ok out) := by
  cases saveFails with
  | false =>
    refine ⟨{ s with db := [], saved := some (.valid []) }, ?_, rfl, rfl, fun f => rfl, ?_⟩
    · simp [initDatabase, h]
    · intro fresh now m
      exact ⟨_, rfl⟩
  | true =>
    refine ⟨{ s with db := [], saved := none }, ?_, rfl, rfl, fun f => rfl, ?_⟩
    · simp [initDatabase, h]
    · intro fresh now m
      exact ⟨_, rfl⟩

/-- Closed instance of C4: initializing over a corrupt snapshot yields an
empty usable store. -/
theorem corrupt_snapshot_recovery_witness :
    ∃ s', initDatabase true false false { demoState with saved := some .corrupt } = .ok s' ∧
      s'.db = [] ∧
      s'.saved = (if false then none else some (.valid [])) ∧
      (∀ f, getAllMiniatures s'.db f = []) ∧
      (∀ fresh now m, ∃ out, createMiniature fresh now m s' = .ok out) :=
  corrupt_snapshot_recovery false { demoState with saved := some .corrupt } rfl

/-! ## C5: accepted document shapes (corrected: records is not recognized) -/

/-- Counterexample to C5 as stated: a document consisting of an object with
a records array field is accepted by the claim wording but rejected by the
code, whose shape check looks only at a miniatures field; the attempt
reports a shape error and leaves the state unchanged. -/
theorem sync_records_field_cex :
    specAccepts recordsDoc = true ∧
    extractMiniatures recordsDoc = none ∧
    handleSync true true (.ok recordsDoc) (fun _ => "u") "T" emptyState
      = (emptyState, .badShape) := by
  refine ⟨rfl, rfl, ?_⟩
  decide

/-- C5 (amended): the engine accepts a fetched document exactly when it is a
bare array or an object with a miniatures array field (a records field is
not recognized); a rejected document produces a shape error and no change to
the live store, in handleSync and in handleLink alike. -/
theorem sync_document_shape :
    (∀ d : JsonDoc, (extractMiniatures d).isSome = true ↔
      ((∃ es, d = .arr es) ∨
       (∃ fs es, d = .obj fs ∧ fs.lookup "miniatures" = some (.arrOf es)))) ∧
    (∀ proceed d uuids now s, extractMiniatures d = none →
      (handleSync true proceed (.ok d) uuids now s).1 = s ∧
      ((s.isDirty && !proceed) = false →
        (handleSync true proceed (.ok d) uuids now s).2 = .badShape)) ∧
    (∀ url valid d uuids now s, url.data.isEmpty = false → valid = true →
      extractMiniatures d = none →
      handleLink url valid (.ok d) uuids now s = (s, .badShape)) := by
  refine ⟨?_, ?_, ?_⟩
  · intro d
    cases d with
    | arr es => simp [extractMiniatures]
    | prim => simp [extractMiniatures]
    | obj fs =>
      constructor
      · intro h
        cases hl : fs.lookup "miniatures" with
        | none => simp [extractMiniatures, hl] at h
        | some v =>
          cases v with
          | arrOf es => exact Or.inr ⟨fs, es, rfl, hl⟩
          | nonArray => simp [extractMiniatures, hl] at h
      · rintro (⟨es, h⟩ | ⟨fs', es, h, hl⟩)
        · cases h
        · cases h; simp [extractMiniatures, hl]
  · intro proceed d uuids now s he
    refine ⟨?_, ?_⟩
    · exact handleSync_fst_of_fails true proceed (.ok d) uuids now s
        (Or.inr (Or.inl ⟨d, rfl, he⟩))
    · intro h2
      simp [handleSync, h2, he]
  · intro url valid d uuids now s hu hv he
    subst hv
    simp [handleLink, hu, he]

/-- Closed instance of C5 (amended): the records-field document is rejected
with a shape error by handleSync on the empty state. -/
theorem sync_document_shape_witness :
    (handleSync true true (.ok recordsDoc) (fun _ => "u") "T" emptyState).1 = emptyState ∧
    ((emptyState.isDirty && !true) = false →
      (handleSync true true (.ok recordsDoc) (fun _ => "u") "T" emptyState).2 = .badShape) :=
  sync_document_shape.2.1 true recordsDoc (fun _ => "u") "T" emptyState rfl

/-! ## C6: dirty flag lifecycle -/

/-- C6: each successful mutating repository operation saves a snapshot,
sets the dirty flag and dispatches an isDirtyChanged notification with
detail true; a successful synchronize leaves the dirty flag false. -/
theorem dirty_flag_lifecycle :
    (∀ fresh now m s out, createMiniature fresh now m s = .ok out →
      out.1.isDirty = true ∧ out.1.saved = some (.valid out.1.db) ∧
      out.1.notifications = s.notifications ++ [true]) ∧
    (∀ now id u s, (updateMiniature now id u s).isDirty = true ∧
      (updateMiniature now id u s).saved = some (.valid (updateMiniature now id u s).db) ∧
      (updateMiniature now id u s).notifications = s.notifications ++ [true]) ∧
    (∀ id s, (deleteMiniature id s).isDirty = true ∧
      (deleteMiniature id s).saved = some (.valid (deleteMiniature id s).db) ∧
      (deleteMiniature id s).notifications = s.notifications ++ [true]) ∧
    (∀ hasUrl proceed fetched uuids now s st n,
      handleSync hasUrl proceed fetched uuids now s = (st, .success n) →
      st.isDirty = false) := by
  refine ⟨?_, ?_, ?_, ?_⟩
  · intro fresh now m s out h
    simp only [createMiniature] at h
    split at h
    · cases h
    · cases h
      exact ⟨rfl, rfl, rfl⟩
  · intro now id u s
    exact ⟨rfl, rfl, rfl⟩
  · intro id s
    exact ⟨rfl, rfl, rfl⟩
  · intro hasUrl proceed fetched uuids now s st n h
    cases hasUrl with
    | false => simp [handleSync] at h
    | true =>
      cases h2 : (s.isDirty && !proceed) with
      | true => simp [handleSync, h2] at h
      | false =>
        cases fetched with
        | httpError => simp [handleSync, h2] at h
        | jsonError => simp [handleSync, h2] at h
        | ok d =>
          cases he : extractMiniatures d with
          | none => simp [handleSync, h2, he] at h
          | some es =>
            cases hi : insertMiniaturesIntoDatabase [] es uuids now with
            | error msg => simp [handleSync, h2, he, hi] at h
            | ok tmp =>
              simp [handleSync, h2, he, hi] at h
              rw [← h.1]
              rfl

/-- Closed instance of C6: creating a record in the empty state sets the
dirty flag, persists the snapshot and emits a notification, and a successful
synchronize of the empty document leaves the dirty flag false. -/
theorem dirty_flag_lifecycle_witness :
    ((createMiniature "u" "T" {} emptyState).toOption.getD (emptyState, "")).1.isDirty = true ∧
    ((createMiniature "u" "T" {} emptyState).toOption.getD (emptyState, "")).1.saved
      = some (.valid ((createMiniature "u" "T" {} emptyState).toOption.getD (emptyState, "")).1.db) ∧
    ((createMiniature "u" "T" {} emptyState).toOption.getD (emptyState, "")).1.notifications
      = emptyState.notifications ++ [true] ∧
    ((handleSync true true (.ok (.arr [])) (fun _ => "u") "T" emptyState).1).isDirty = false := by
  have h := dirty_flag_lifecycle.1 "u" "T" {} emptyState
    ((createMiniature "u" "T" {} emptyState).toOption.getD (emptyState, "")) rfl
  have h4 := dirty_flag_lifecycle.2.2.2 true true (.ok (.arr [])) (fun _ => "u") "T"
    emptyState ((handleSync true true (.ok (.arr [])) (fun _ => "u") "T" emptyState).1) 0 rfl
  exact ⟨h.1, h.2.1, h.2.2, h4⟩

/-! ## C10: amount defaulting divergence between the two insertion paths -/

theorem amountOrOne_ne_zero (o : Option Int) : amountOrOne o ≠ 0 := by
  cases o with
  | none => simp [amountOrOne]
  | some a =>
    by_cases h : a = 0 <;> simp [amountOrOne, h]

/-- C10: createMiniature replaces any falsy amount, including an explicit 0,
with 1 (so no record it inserts ever has amount 0), while the trial insert
of the synchronization path keeps an explicit amount of 0, substituting 1
only for a missing amount; consequently a record with amount 0 can enter the
live store by a successful synchronize, but never by create. -/
theorem amount_defaulting_divergence :
    (∀ fresh now m s out, createMiniature fresh now m s = .ok out →
      ∀ r ∈ out.1.db, r ∈ s.db ∨ r.amount ≠ 0) ∧
    (∀ fresh now m s out, m.amount = some 0 →
      createMiniature fresh now m s = .ok out →
      ∀ r ∈ out.1.db, r ∈ s.db ∨ r.amount = 1) ∧
    (∀ rows f fresh now rows', f.amount = some 0 →
      insertEntryInto rows (.obj f) fresh now = .ok rows' →
      ∃ r, rows' = rows ++ [r] ∧ r.amount = 0) ∧
    ((handleSync true true (.ok (.arr [amountZeroEntry])) (fun _ => "u") "T"
        emptyState).2 = .success 1 ∧
      (handleSync true true (.ok (.arr [amountZeroEntry])) (fun _ => "u") "T"
        emptyState).1.db.map Miniature.amount = [0]) := by
  refine ⟨?_, ?_, ?_, by decide, by decide⟩
  · intro fresh now m s out h r hr
    simp only [createMiniature] at h
    split at h
    · cases h
    · cases h
      simp only [saveDatabase] at hr
      rcases List.mem_append.mp hr with hr | hr
      · exact Or.inl hr
      · simp only [List.mem_singleton] at hr
        subst hr
        exact Or.inr (amountOrOne_ne_zero m.amount)
  · intro fresh now m s out hm h r hr
    simp only [createMiniature] at h
    split at h
    · cases h
    · cases h
      simp only [saveDatabase] at hr
      rcases List.mem_append.mp hr with hr | hr
      · exact Or.inl hr
      · simp only [List.mem_singleton] at hr
        subst hr
        simp [amountOrOne, hm]
  · intro rows f fresh now rows' hm h
    simp only [insertEntryInto, insertEntryFields, insertRow] at h
    split at h
    · cases h
    · cases h
      exact ⟨_, rfl, by simp [hm]⟩

/-! ## C3: keyword normalization, helper lemmas -/

theorem lowerChar_fix (c : Char) (h : isAllowed c = true) : lowerChar c = c := by
  simp only [isAllowed, isWs, Bool.or_eq_true, Bool.and_eq_true, decide_eq_true_eq] at h
  rcases h with ((⟨h1, h2⟩ | ⟨h1, h2⟩) | (((h | h) | h) | h)) | h
  · rw [lowerChar, if_neg]; simp; omega
  · rw [lowerChar, if_neg]; simp; omega
  · subst h; decide
  · subst h; decide
  · subst h; decide
  · subst h; decide
  · rw [lowerChar, if_neg]; simp; omega

theorem sep_not_allowed (c : Char) (h : isSep c = true) : isAllowed c = false := by
  simp only [isSep, Bool.or_eq_true, decide_eq_true_eq] at h
  rcases h with h | h <;> subst h <;> decide

theorem allowed_not_sep (c : Char) (h : isAllowed c = true) : isSep c = false := by
  cases hs : isSep c with
  | false => rfl
  | true => rw [sep_not_allowed c hs] at h; cases h

theorem allowed_canon (c : Char) (h : isAllowed c = true)
    (hw : isWs c = true → c = ' ') : isCanonChar c = true := by
  by_cases hws : isWs c = true
  · rw [hw hws]; decide
  · simp only [isAllowed, Bool.or_eq_true, Bool.and_eq_true, decide_eq_true_eq] at h
    rcases h with ((⟨h1, h2⟩ | ⟨h1, h2⟩) | h) | h
    · simp [isCanonChar]; omega
    · simp [isCanonChar]; omega
    · exact absurd h hws
    · simp [isCanonChar]; omega

theorem all_of_sublist {p : Char → Bool} {l₁ l₂ : List Char} (hs : l₁.Sublist l₂)
    (h : l₂.all p = true) : l₁.all p = true := by
  rw [List.all_eq_true] at h ⊢
  exact fun x hx => h x (hs.subset hx)

theorem dropTrailingWs_prefixOf (l : List Char) : dropTrailingWs l <+: l := by
  induction l with
  | nil => exact List.prefix_refl _
  | cons c cs ih =>
    rw [dropTrailingWs]
    cases h : dropTrailingWs cs with
    | nil =>
      by_cases hw : isWs c
      · rw [if_pos hw]; exact List.nil_prefix
      · rw [if_neg hw]
        exact List.cons_prefix_cons.mpr ⟨rfl, List.nil_prefix⟩
    | cons d r =>
      exact List.cons_prefix_cons.mpr ⟨rfl, h ▸ ih⟩

theorem trimChars_sublist (l : List Char) : (trimChars l).Sublist l :=
  ((dropTrailingWs_prefixOf _).sublist).trans (List.dropWhile_suffix isWs).sublist

theorem trimChars_subset (l : List Char) : trimChars l ⊆ l :=
  (trimChars_sublist l).subset

theorem all_collapseWs : ∀ l : List Char, l.all isAllowed = true →
    (collapseWs l).all isAllowed = true
  | [] => fun _ => rfl
  | [c] => fun h => by
    rw [List.all_cons, Bool.and_eq_true] at h
    by_cases hw : isWs c
    · simp only [collapseWs, if_pos hw]
      decide
    · simp only [collapseWs, if_neg hw]
      simpa using h.1
  | c₁ :: c₂ :: cs => fun h => by
    rw [List.all_cons, Bool.and_eq_true] at h
    have ih := all_collapseWs (c₂ :: cs) h.2
    cases hb : (isWs c₁ && isWs c₂) with
    | true => simpa only [collapseWs, hb, if_pos] using ih
    | false =>
      rw [collapseWs, hb]
      simp only [Bool.false_eq_true, if_false, List.all_cons, Bool.and_eq_true]
      refine ⟨?_, ih⟩
      by_cases hw : isWs c₁
      · rw [if_pos hw]; decide
      · rw [if_neg hw]; exact h.1

theorem collapseWs_ws_space : ∀ l : List Char, ∀ c ∈ collapseWs l,
    isWs c = true → c = ' '
  | [] => fun c hc => absurd hc (List.not_mem_nil c)
  | [a] => fun c hc => by
    by_cases hw : isWs a
    · simp only [collapseWs, if_pos hw, List.mem_singleton] at hc
      subst hc; exact fun _ => rfl
    · simp only [collapseWs, if_neg hw, List.mem_singleton] at hc
      subst hc; intro h; exact absurd h hw
  | c₁ :: c₂ :: cs => fun c hc => by
    cases hb : (isWs c₁ && isWs c₂) with
    | true =>
      rw [collapseWs, hb, if_pos rfl] at hc
      exact collapseWs_ws_space (c₂ :: cs) c hc
    | false =>
      rw [collapseWs, hb] at hc
      simp only [Bool.false_eq_true, if_false, List.mem_cons] at hc
      rcases hc with hc | hc
      · subst hc
        by_cases hw : isWs c₁
        · rw [if_pos hw]; exact fun _ => rfl
        · rw [if_neg hw]; intro h; exact absurd h hw
      · exact collapseWs_ws_space (c₂ :: cs) c hc

theorem collapseWs_head : ∀ (c : Char) (cs : List Char),
    (collapseWs (c :: cs)).head? = some (if isWs c then ' ' else c)
  | c, [] => rfl
  | c, c₂ :: cs => by
    cases hb : (isWs c && isWs c₂) with
    | true =>
      rw [Bool.and_eq_true] at hb
      rw [collapseWs, if_pos (by rw [hb.1, hb.2]; rfl)]
      rw [collapseWs_head c₂ cs]
      simp [hb.1, hb.2]
    | false =>
      rw [collapseWs, hb]
      simp

theorem noWsPair_cons_of (x : Char) (rest : List Char)
    (hh : ∀ y, rest.head? = some y → (isWs x && isWs y) = false)
    (h : noWsPair rest = true) : noWsPair (x :: rest) = true := by
  cases rest with
  | nil => rfl
  | cons y r =>
    rw [noWsPair, Bool.and_eq_true]
    exact ⟨by rw [hh y rfl]; rfl, h⟩

theorem noWsPair_collapseWs : ∀ l : List Char, noWsPair (collapseWs l) = true
  | [] => rfl
  | [c] => rfl
  | c₁ :: c₂ :: cs => by
    have ih := noWsPair_collapseWs (c₂ :: cs)
    cases hb : (isWs c₁ && isWs c₂) with
    | true => rw [collapseWs, hb, if_pos rfl]; exact ih
    | false =>
      rw [collapseWs, hb]
      simp only [Bool.false_eq_true, if_false]
      apply noWsPair_cons_of _ _ _ ih
      intro y hy
      rw [collapseWs_head c₂ cs] at hy
      injection hy with hy
      by_cases hw : isWs c₁
      · have hb2 : isWs c₂ = false := by
          rcases Bool.and_eq_false_iff.mp hb with h2 | h2
          · rw [hw] at h2; cases h2
          · exact h2
        rw [if_neg (by simp [hb2])] at hy
        subst hy
        rw [if_pos hw, hb2, Bool.and_false]
      · have hw' : isWs c₁ = false := Bool.eq_false_iff.mpr hw
        rw [if_neg hw, hw', Bool.false_and]

theorem noWsPair_tail (c : Char) (cs : List Char)
    (h : noWsPair (c :: cs) = true) : noWsPair cs = true := by
  cases cs with
  | nil => rfl
  | cons d r =>
    rw [noWsPair, Bool.and_eq_true] at h
    exact h.2

theorem noWsPair_dropWhile (p : Char → Bool) :
    ∀ l : List Char, noWsPair l = true → noWsPair (l.dropWhile p) = true
  | [] => fun _ => rfl
  | c :: cs => fun h => by
    rw [List.dropWhile_cons]
    by_cases hp : p c = true
    · rw [if_pos hp]
      exact noWsPair_dropWhile p cs (noWsPair_tail c cs h)
    · rw [if_neg hp]
      exact h

theorem dropTrailingWs_head : ∀ l : List Char, dropTrailingWs l ≠ [] →
    (dropTrailingWs l).head? = l.head?
  | [] => fun h => absurd rfl h
  | c :: cs => fun hne => by
    cases h : dropTrailingWs cs with
    | nil =>
      by_cases hw : isWs c
      · exact absurd (by rw [dropTrailingWs, h, if_pos hw]) hne
      · rw [dropTrailingWs, h]
        show (if isWs c = true then [] else [c]).head? = (c :: cs).head?
        rw [if_neg hw]
        rfl
    | cons d r =>
      rw [dropTrailingWs, h]
      rfl

theorem noWsPair_dropTrailingWs : ∀ l : List Char, noWsPair l = true →
    noWsPair (dropTrailingWs l) = true
  | [] => fun _ => rfl
  | c :: cs => fun h => by
    rw [dropTrailingWs]
    cases hd : dropTrailingWs cs with
    | nil =>
      by_cases hw : isWs c
      · rw [if_pos hw]; rfl
      · rw [if_neg hw]; rfl
    | cons d r =>
      have ih := noWsPair_dropTrailingWs cs (noWsPair_tail c cs h)
      rw [hd] at ih
      cases cs with
      | nil => cases hd
      | cons e cs' =>
        have hh : (dropTrailingWs (e :: cs')).head? = (e :: cs').head? :=
          dropTrailingWs_head (e :: cs') (by rw [hd]; exact List.cons_ne_nil d r)
        rw [hd] at hh
        injection hh with hde
        subst hde
        rw [noWsPair, Bool.and_eq_true] at h ⊢
        exact ⟨h.1, ih⟩

theorem noWsPair_trimChars (l : List Char) (h : noWsPair l = true) :
    noWsPair (trimChars l) = true :=
  noWsPair_dropTrailingWs _ (noWsPair_dropWhile isWs l h)

theorem head_dropWhile_not (p : Char → Bool) :
    ∀ l : List Char, ∀ c, (l.dropWhile p).head? = some c → p c = false
  | [] => fun c h => by cases h
  | a :: as => fun c h => by
    rw [List.dropWhile_cons] at h
    by_cases hp : p a = true
    · rw [if_pos hp] at h
      exact head_dropWhile_not p as c h
    · rw [if_neg hp] at h
      injection h with h
      subst h
      exact Bool.eq_false_iff.mpr hp

theorem dropWhile_eq_self_of_head (p : Char → Bool) (l : List Char)
    (h : ∀ c, l.head? = some c → p c = false) : l.dropWhile p = l := by
  cases l with
  | nil => rfl
  | cons a as =>
    rw [List.dropWhile_cons, if_neg]
    rw [h a rfl]
    exact Bool.false_ne_true

theorem getLast?_dropTrailingWs : ∀ l : List Char, ∀ c,
    (dropTrailingWs l).getLast? = some c → isWs c = false
  | [] => fun c h => by cases h
  | a :: as => fun c h => by
    rw [dropTrailingWs] at h
    cases hd : dropTrailingWs as with
    | nil =>
      rw [hd] at h
      by_cases hw : isWs a
      · rw [if_pos hw] at h; cases h
      · rw [if_neg hw] at h
        simp only [List.getLast?_singleton, Option.some.injEq] at h
        subst h
        exact Bool.eq_false_iff.mpr hw
    | cons d r =>
      rw [hd] at h
      rw [List.getLast?_cons_cons] at h
      exact getLast?_dropTrailingWs as c (hd ▸ h)

theorem dropTrailingWs_eq_self : ∀ l : List Char,
    (∀ c, l.getLast? = some c → isWs c = false) → dropTrailingWs l = l
  | [] => fun _ => rfl
  | a :: as => fun h => by
    cases as with
    | nil =>
      have ha := h a rfl
      rw [dropTrailingWs, dropTrailingWs, if_neg]
      rw [ha]
      exact Bool.false_ne_true
    | cons b bs =>
      have ih := dropTrailingWs_eq_self (b :: bs)
        (fun c hc => h c (by rw [List.getLast?_cons_cons]; exact hc))
      rw [dropTrailingWs, ih]

theorem dropTrailingWs_idem (l : List Char) :
    dropTrailingWs (dropTrailingWs l) = dropTrailingWs l :=
  dropTrailingWs_eq_self _ (getLast?_dropTrailingWs l)

theorem trimChars_idem (l : List Char) : trimChars (trimChars l) = trimChars l := by
  unfold trimChars
  rw [dropWhile_eq_self_of_head isWs (dropTrailingWs (l.dropWhile isWs)), dropTrailingWs_idem]
  intro c hc
  cases hd : dropTrailingWs (l.dropWhile isWs) with
  | nil => rw [hd] at hc; cases hc
  | cons d r =>
    have hh := dropTrailingWs_head (l.dropWhile isWs) (by rw [hd]; exact List.cons_ne_nil d r)
    rw [hh] at hc
    exact head_dropWhile_not isWs l c hc

theorem trimChars_ws_cons (c : Char) (l : List Char) (hc : isWs c = true) :
    trimChars (c :: l) = trimChars l := by
  unfold trimChars
  rw [List.dropWhile_cons, if_pos hc]

/-! ### cleanTag facts -/

theorem filter_all_allowed (l : List Char) :
    (l.filter isAllowed).all isAllowed = true :=
  List.all_eq_true.mpr (fun _ hx => (List.mem_filter.mp hx).2)

theorem cleanTag_allowed (p : List Char) : (cleanTag p).all isAllowed = true := by
  unfold cleanTag
  exact all_of_sublist (trimChars_sublist _)
    (all_collapseWs _ (filter_all_allowed _))

theorem cleanTag_ws_space (p : List Char) :
    ∀ c ∈ cleanTag p, isWs c = true → c = ' ' := by
  intro c hc
  exact collapseWs_ws_space _ c (trimChars_subset _ hc)

theorem cleanTag_noWsPair (p : List Char) : noWsPair (cleanTag p) = true :=
  noWsPair_trimChars _ (noWsPair_collapseWs _)

theorem cleanTag_trim (p : List Char) : trimChars (cleanTag p) = cleanTag p :=
  trimChars_idem _

theorem lowerChars_fix : ∀ l : List Char, l.all isAllowed = true →
    lowerChars l = l
  | [] => fun _ => rfl
  | c :: cs => fun h => by
    rw [List.all_cons, Bool.and_eq_true] at h
    show lowerChar c :: lowerChars cs = c :: cs
    rw [lowerChar_fix c h.1, lowerChars_fix cs h.2]

theorem filter_fix (l : List Char) (h : l.all isAllowed = true) :
    l.filter isAllowed = l :=
  List.filter_eq_self.mpr (List.all_eq_true.mp h)

theorem collapseWs_fix : ∀ l : List Char, noWsPair l = true →
    (∀ c ∈ l, isWs c = true → c = ' ') → collapseWs l = l
  | [] => fun _ _ => rfl
  | [c] => fun _ h2 => by
    rw [collapseWs]
    by_cases hw : isWs c
    · rw [if_pos hw, h2 c (List.mem_singleton_self c) hw]
    · rw [if_neg hw]
  | c₁ :: c₂ :: cs => fun h1 h2 => by
    have hb : (isWs c₁ && isWs c₂) = false := by
      rw [noWsPair, Bool.and_eq_true] at h1
      have h3 := h1.1
      rwa [Bool.not_eq_true'] at h3
    rw [collapseWs, hb]
    simp only [Bool.false_eq_true, if_false]
    have ih := collapseWs_fix (c₂ :: cs) (noWsPair_tail _ _ h1)
      (fun c hc hw => h2 c (List.mem_cons_of_mem c₁ hc) hw)
    rw [ih]
    by_cases hw : isWs c₁
    · rw [if_pos hw, h2 c₁ (List.mem_cons_self c₁ _) hw]
    · rw [if_neg hw]

theorem cleanTag_idem (p : List Char) : cleanTag (cleanTag p) = cleanTag p := by
  conv_lhs => rw [cleanTag]
  rw [cleanTag_trim p, lowerChars_fix _ (cleanTag_allowed p),
    filter_fix _ (cleanTag_allowed p),
    collapseWs_fix _ (cleanTag_noWsPair p) (cleanTag_ws_space p),
    cleanTag_trim p]

/-! ### split, join and dedup facts -/

theorem splitSeps_no_sep : ∀ t : List Char, (∀ c ∈ t, isSep c = false) →
    splitSeps t = [t]
  | [] => fun _ => rfl
  | c :: ts => fun h => by
    rw [splitSeps,
      if_neg (by rw [h c (List.mem_cons_self c ts)]; exact Bool.false_ne_true),
      splitSeps_no_sep ts (fun x hx => h x (List.mem_cons_of_mem c hx))]

theorem splitSeps_append_sep : ∀ (t : List Char) (s : Char) (rest : List Char),
    (∀ c ∈ t, isSep c = false) → isSep s = true →
    splitSeps (t ++ s :: rest) = t :: splitSeps rest
  | [], s, rest => fun _ hs => by
    rw [List.nil_append, splitSeps, if_pos hs]
  | c :: t', s, rest => fun h hs => by
    rw [List.cons_append, splitSeps,
      if_neg (by rw [h c (List.mem_cons_self c t')]; exact Bool.false_ne_true),
      splitSeps_append_sep t' s rest (fun x hx => h x (List.mem_cons_of_mem c hx)) hs]

theorem splitSeps_joinTags : ∀ (t : List Char) (ts : List (List Char)),
    (∀ c ∈ t, isSep c = false) →
    (∀ u ∈ ts, ∀ c ∈ u, isSep c = false) →
    splitSeps (joinTags (t :: ts)) = t :: ts.map (fun u => ' ' :: u)
  | t, [] => fun ht _ => splitSeps_no_sep t ht
  | t, u :: ts' => fun ht hts => by
    show splitSeps (t ++ ',' :: ' ' :: joinTags (u :: ts'))
      = t :: (u :: ts').map (fun v => ' ' :: v)
    rw [splitSeps_append_sep t ',' (' ' :: joinTags (u :: ts')) ht (by decide)]
    congr 1
    rw [splitSeps, if_neg (by decide),
      splitSeps_joinTags u ts' (hts u (List.mem_cons_self u ts'))
        (fun v hv => hts v (List.mem_cons_of_mem u hv))]
    rfl

theorem mem_dedupTags : ∀ (seen l : List (List Char)) (x : List Char),
    x ∈ dedupTags seen l → x ∈ l
  | _, [], x => fun h => absurd h (List.not_mem_nil x)
  | seen, t :: ts, x => fun h => by
    rw [dedupTags] at h
    by_cases hc : seen.contains t = true
    · rw [if_pos hc] at h
      exact List.mem_cons_of_mem t (mem_dedupTags seen ts x h)
    · rw [if_neg hc] at h
      rcases List.mem_cons.mp h with h | h
      · rw [h]; exact List.mem_cons_self t ts
      · exact List.mem_cons_of_mem t (mem_dedupTags (t :: seen) ts x h)

theorem not_contains_dedupTags : ∀ (seen l : List (List Char)) (x : List Char),
    x ∈ dedupTags seen l → seen.contains x = false
  | _, [], x => fun h => absurd h (List.not_mem_nil x)
  | seen, t :: ts, x => fun h => by
    rw [dedupTags] at h
    by_cases hc : seen.contains t = true
    · rw [if_pos hc] at h
      exact not_contains_dedupTags seen ts x h
    · rw [if_neg hc] at h
      rcases List.mem_cons.mp h with h | h
      · rw [h]; exact Bool.eq_false_iff.mpr hc
      · have h2 := not_contains_dedupTags (t :: seen) ts x h
        rw [List.contains_cons] at h2
        exact (Bool.or_eq_false_iff.mp h2).2

theorem nodup_dedupTags : ∀ (seen l : List (List Char)), (dedupTags seen l).Nodup
  | _, [] => List.nodup_nil
  | seen, t :: ts => by
    rw [dedupTags]
    by_cases hc : seen.contains t = true
    · rw [if_pos hc]; exact nodup_dedupTags seen ts
    · rw [if_neg hc, List.nodup_cons]
      refine ⟨?_, nodup_dedupTags (t :: seen) ts⟩
      intro hmem
      have h2 := not_contains_dedupTags (t :: seen) ts t hmem
      rw [List.contains_cons] at h2
      simp at h2

theorem dedupTags_eq_self : ∀ (seen l : List (List Char)), l.Nodup →
    (∀ x ∈ l, seen.contains x = false) → dedupTags seen l = l
  | _, [] => fun _ _ => rfl
  | seen, t :: ts => fun hnd hs => by
    rw [dedupTags,
      if_neg (by rw [hs t (List.mem_cons_self t ts)]; exact Bool.false_ne_true)]
    congr 1
    apply dedupTags_eq_self (t :: seen) ts (List.nodup_cons.mp hnd).2
    intro x hx
    rw [List.contains_cons, hs x (List.mem_cons_of_mem t hx),
      beq_eq_false_iff_ne.mpr
        (fun he => (List.nodup_cons.mp hnd).1 (by rw [← he]; exact hx))]
    rfl

theorem parseKeywordsL_mem (s x : List Char) (hx : x ∈ parseKeywordsL s) :
    x ≠ [] ∧ ∃ p, x = cleanTag p := by
  have h1 := mem_dedupTags _ _ _ hx
  rw [List.mem_filter] at h1
  obtain ⟨h2, h3⟩ := h1
  rw [List.mem_map] at h2
  obtain ⟨p, _, he⟩ := h2
  refine ⟨?_, p, he.symm⟩
  intro hnil
  rw [hnil] at h3
  simp at h3

/-! ### parsing the normalized string gives the same tags -/

theorem parse_normalize (s : List Char) :
    parseKeywordsL (normalizeKeywordsL s) = parseKeywordsL s := by
  cases hts : parseKeywordsL s with
  | nil =>
    rw [normalizeKeywordsL, hts]
    rfl
  | cons t us =>
    have hmem : ∀ x ∈ t :: us, x ≠ [] ∧ ∃ p, x = cleanTag p := by
      intro x hx
      exact parseKeywordsL_mem s x (hts ▸ hx)
    have hclean : ∀ x ∈ t :: us, cleanTag x = x := by
      intro x hx
      obtain ⟨-, p, hp⟩ := hmem x hx
      rw [hp, cleanTag_idem]
    have hallow : ∀ x ∈ t :: us, x.all isAllowed = true := by
      intro x hx
      obtain ⟨-, p, hp⟩ := hmem x hx
      rw [hp]
      exact cleanTag_allowed p
    have hnosep : ∀ x ∈ t :: us, ∀ c ∈ x, isSep c = false := by
      intro x hx c hc
      exact allowed_not_sep c (List.all_eq_true.mp (hallow x hx) c hc)
    have hnd0 : (parseKeywordsL s).Nodup := nodup_dedupTags [] _
    rw [hts] at hnd0
    rw [normalizeKeywordsL, hts, parseKeywordsL,
      splitSeps_joinTags t us (hnosep t (List.mem_cons_self t us))
        (fun u hu => hnosep u (List.mem_cons_of_mem t hu))]
    have hmap : (t :: us.map (fun u => ' ' :: u)).map cleanTag = t :: us := by
      rw [List.map_cons, hclean t (List.mem_cons_self t us), List.map_map]
      congr 1
      have hpt : ∀ u ∈ us, (cleanTag ∘ fun v => ' ' :: v) u = id u := by
        intro u hu
        show cleanTag (' ' :: u) = u
        have hsp : cleanTag (' ' :: u) = cleanTag u := by
          unfold cleanTag
          rw [trimChars_ws_cons ' ' u (by decide)]
        rw [hsp]
        exact hclean u (List.mem_cons_of_mem t hu)
      rw [List.map_congr_left hpt, List.map_id]
    rw [hmap]
    have hfil : (t :: us).filter (fun x => !x.isEmpty) = t :: us := by
      apply List.filter_eq_self.mpr
      intro x hx
      cases x with
      | nil => exact absurd rfl (hmem [] hx).1
      | cons a b => rfl
    rw [hfil]
    exact dedupTags_eq_self [] (t :: us) hnd0 (fun _ _ => rfl)

theorem normalizeKeywords_idem (s : String) :
    normalizeKeywords (normalizeKeywords s) = normalizeKeywords s := by
  show String.mk (normalizeKeywordsL (normalizeKeywordsL s.data))
    = String.mk (normalizeKeywordsL s.data)
  exact congrArg String.mk (congrArg joinTags (parse_normalize s.data))

/-- C3: keyword normalization is idempotent (normalizing twice equals
normalizing once), and its output is canonical: the parsed tags are
non-empty, consist only of lower-case letters, digits, hyphens and single
spaces, are lower-case-stable, trimmed and free of adjacent whitespace,
contain no duplicates, and the normalized string joins them with a comma
and a space; in particular normalizing the string Sword, SWORD ,  sword!!
yields exactly sword. -/
theorem keyword_normalization_canonical :
    (∀ s : String, normalizeKeywords (normalizeKeywords s) = normalizeKeywords s) ∧
    (∀ s : String, ∀ t ∈ parseKeywordsL s.data,
      t ≠ [] ∧ t.all isCanonChar = true ∧ lowerChars t = t ∧ trimChars t = t ∧
      noWsPair t = true) ∧
    (∀ s : String, (parseKeywordsL s.data).Nodup) ∧
    (∀ s : String, normalizeKeywords s = String.mk (joinTags (parseKeywordsL s.data))) ∧
    normalizeKeywords "Sword, SWORD ,  sword!!" = "sword" := by
  refine ⟨normalizeKeywords_idem, ?_, fun s => nodup_dedupTags [] _,
    fun s => rfl, by decide⟩
  intro s t ht
  obtain ⟨hne, p, hp⟩ := parseKeywordsL_mem s.data t ht
  subst hp
  refine ⟨hne, ?_, lowerChars_fix _ (cleanTag_allowed p), cleanTag_trim p,
    cleanTag_noWsPair p⟩
  rw [List.all_eq_true]
  intro c hc
  exact allowed_canon c (List.all_eq_true.mp (cleanTag_allowed p) c hc)
    (cleanTag_ws_space p c hc)

/-- Closed instance of C3: the single tag parsed from the demonstration
string is canonical. -/
theorem keyword_normalization_canonical_witness :
    "sword".data ≠ [] ∧ "sword".data.all isCanonChar = true ∧
    lowerChars "sword".data = "sword".data ∧
    trimChars "sword".data = "sword".data ∧
    noWsPair "sword".data = true :=
  keyword_normalization_canonical.2.1 "Sword, SWORD ,  sword!!" "sword".data
    (by decide)

/-! ## C9: export document shape (corrected: bare array, no records wrapper) -/

theorem getAll_default (db : List Miniature) : getAllMiniatures db {} = db :=
  List.filter_eq_self.mpr (fun _ _ => rfl)

theorem mem_joinStrs_infix (sep : String) (l : List String) (x : String)
    (h : x ∈ l) : x.data <:+: (joinStrs sep l).data := by
  induction l with
  | nil => cases h
  | cons s ss ih =>
    cases ss with
    | nil =>
      rw [List.mem_singleton] at h
      subst h
      exact List.infix_refl _
    | cons s₂ ss₂ =>
      rcases List.mem_cons.mp h with h | h
      · subst h
        show x.data <:+: (x ++ sep ++ joinStrs sep (s₂ :: ss₂)).data
        rw [String.data_append, String.data_append]
        exact ((List.prefix_append x.data sep.data).trans
          (List.prefix_append _ _)).isInfix
      · show x.data <:+: (s ++ sep ++ joinStrs sep (s₂ :: ss₂)).data
        rw [String.data_append, String.data_append]
        exact (ih h).trans (List.suffix_append _ _).isInfix

/-- Counterexample to C9 as stated: the export of the empty store is the
pretty-printed empty array, not a document with the records wrapper that the
claim describes (for the empty record set that document would be exactly
specExportRecordsEmpty). -/
theorem export_records_wrapper_cex :
    exportDatabaseAsJSON [] = "[]" ∧
    exportDatabaseAsJSON [] ≠ specExportRecordsEmpty := by decide

set_option maxRecDepth 8192 in
/-- C9 (amended): exportDatabaseAsJSON produces the pretty-printed JSON
array of the stored records themselves, not wrapped in a records object:
the empty store exports as the empty array, a non-empty export begins with
an opening bracket, every stored record's serialized object (with fields
id, game, name, amount, painted, keywords, image_data, created_at,
updated_at, plus embedding when present) occurs in the output, and on the
demonstration row the output is the exact array document shown. -/
theorem export_shape :
    exportDatabaseAsJSON [] = "[]" ∧
    (∀ db : List Miniature, db ≠ [] →
      (exportDatabaseAsJSON db).data.head? = some '[') ∧
    (∀ (db : List Miniature) (m : Miniature), m ∈ db →
      (miniObjPretty m).data <:+: (exportDatabaseAsJSON db).data) ∧
    exportDatabaseAsJSON [exportDemoRow]
      = "[\n  \x7b\n    \"id\": \"a\",\n    \"game\": \"g\",\n    \"name\": \"n\",\n    \"amount\": 2,\n    \"painted\": true,\n    \"keywords\": \"k\",\n    \"image_data\": \"d\",\n    \"created_at\": \"c\",\n    \"updated_at\": \"u\"\n  \x7d\n]" := by
  refine ⟨rfl, ?_, ?_, by decide⟩
  · intro db hne
    unfold exportDatabaseAsJSON
    rw [getAll_default]
    cases db with
    | nil => exact absurd rfl hne
    | cons a l =>
      rw [List.isEmpty_cons, if_neg (by decide)]
      rw [String.data_append, String.data_append]
      rfl
  · intro db m hm
    unfold exportDatabaseAsJSON
    rw [getAll_default]
    cases db with
    | nil => cases hm
    | cons a l =>
      rw [List.isEmpty_cons, if_neg (by decide)]
      have h1 : ("  " ++ miniObjPretty m) ∈ (a :: l).map (fun r => "  " ++ miniObjPretty r) :=
        List.mem_map_of_mem _ hm
      have h2 := mem_joinStrs_infix ",\n" _ _ h1
      have h3 : (miniObjPretty m).data <:+: ("  " ++ miniObjPretty m).data := by
        rw [String.data_append]
        exact (List.suffix_append _ _).isInfix
      refine (h3.trans h2).trans ?_
      rw [String.data_append, String.data_append]
      exact List.infix_append _ _ _

/-- Closed instance of C9 (amended): the export of the one-row store starts
with the array bracket and contains the row's serialized object. -/
theorem export_shape_witness :
    (exportDatabaseAsJSON [exportDemoRow]).data.head? = some '[' ∧
    (miniObjPretty exportDemoRow).data <:+: (exportDatabaseAsJSON [exportDemoRow]).data :=
  ⟨export_shape.2.1 [exportDemoRow] (by decide),
   export_shape.2.2.1 [exportDemoRow] exportDemoRow (by decide)⟩

/-! ## C2: search semantics (corrected: LIKE wildcards in terms) -/

theorem anySuffix_likeMatch_nil (h : List Char) :
    anySuffix (likeMatch []) h = true := by
  induction h with
  | nil => rfl
  | cons c cs ih => simp [anySuffix, ih]

theorem likeMatch_pct (ps t : List Char) :
    likeMatch ('%' :: ps) t = anySuffix (likeMatch ps) t := rfl

theorem likeMatch_tail_pct (t : List Char) (hw : noWildcard t = true) :
    ∀ h : List Char, likeMatch (t ++ ['%']) h = t.isPrefixOf h := by
  induction t with
  | nil =>
    intro h
    rw [List.nil_append, likeMatch_pct, anySuffix_likeMatch_nil]
    cases h <;> rfl
  | cons c t' ih =>
    simp only [noWildcard, List.all_cons, Bool.and_eq_true, Bool.not_eq_true',
      decide_eq_false_iff_not] at hw
    intro h
    cases h with
    | nil =>
      rw [List.cons_append]
      simp [likeMatch, hw.1.1, List.isPrefixOf]
    | cons d h' =>
      rw [List.cons_append]
      have ih' := ih (by simp [noWildcard, hw.2]) h'
      simp [likeMatch, hw.1.1, hw.1.2, List.isPrefixOf, ih']

theorem likeMatch_likePat (t : List Char) (hw : noWildcard t = true) :
    ∀ h : List Char, likeMatch (likePat t) h = substrOf t h := by
  intro h
  induction h with
  | nil =>
    show anySuffix (likeMatch (t ++ ['%'])) [] = substrOf t []
    rw [anySuffix, likeMatch_tail_pct t hw]
    rfl
  | cons c h' ih =>
    show anySuffix (likeMatch (t ++ ['%'])) (c :: h') = substrOf t (c :: h')
    rw [anySuffix, likeMatch_tail_pct t hw, substrOf]
    have ih2 : anySuffix (likeMatch (t ++ ['%'])) h' = substrOf t h' := ih
    rw [ih2]

theorem rowMatchesTerm_eq_spec (m : Miniature) (t : List Char)
    (hw : noWildcard t = true) : rowMatchesTerm m t = specTermHits m t := by
  unfold rowMatchesTerm specTermHits
  rw [likeMatch_likePat t hw, likeMatch_likePat t hw, likeMatch_likePat t hw]

theorem all_congr_mem {α : Type} (l : List α) (p q : α → Bool)
    (h : ∀ x ∈ l, p x = q x) : l.all p = l.all q := by
  induction l with
  | nil => rfl
  | cons a t ih =>
    rw [List.all_cons, List.all_cons, h a (by simp),
      ih (fun x hx => h x (by simp [hx]))]

/-- Counterexample to C2 as stated: an underscore in a search term acts as a
LIKE single-character wildcard, not as a literal, so searching for x_z
returns the record whose keywords field is xyz although x_z occurs as a
substring of none of its fields. -/
theorem search_substring_cex :
    getAllMiniatures [cexRow] { search := some "x_z" } = [cexRow] ∧
    specSearch [cexRow] "x_z" = [] := by decide

/-- C2 (amended): the search filter splits the query at commas into trimmed
non-empty lower-cased terms and keeps the records for which every term's
LIKE pattern matches keywords, game or name; for terms without the LIKE
wildcard characters percent and underscore this is exactly the claimed
case-insensitive-substring semantics (AND across terms, OR across the three
fields per term), and on the P3 records the search sword, warhammer returns
exactly R3. -/
theorem search_filter_semantics :
    (∀ (db : List Miniature) (q : String),
      (∀ t ∈ searchTerms q, noWildcard t = true) →
      getAllMiniatures db { search := some q } = specSearch db q) ∧
    getAllMiniatures [searchR1, searchR2, searchR3]
        { search := some "sword, warhammer" } = [searchR3] := by
  refine ⟨?_, by decide⟩
  intro db q hw
  unfold getAllMiniatures specSearch
  apply List.filter_congr
  intro m _
  show matchesFilters { search := some q } m = (searchTerms q).all (specTermHits m)
  unfold matchesFilters
  simp only [Bool.true_and]
  cases hq : q.data.isEmpty with
  | true =>
    have hnil : q.data = [] := by simpa using hq
    have hterms : searchTerms q = [] := by rw [searchTerms, hnil]; rfl
    rw [hterms]
    simp
  | false =>
    simp only [Bool.false_or]
    exact all_congr_mem _ _ _ (fun t ht => rowMatchesTerm_eq_spec m t (hw t ht))

/-- Closed instance of C2 (amended): on the P3 record set the code's search
agrees with the substring semantics for the wildcard-free query. -/
theorem search_filter_semantics_witness :
    getAllMiniatures [searchR1, searchR2, searchR3]
        { search := some "sword, warhammer" }
      = specSearch [searchR1, searchR2, searchR3] "sword, warhammer" :=
  search_filter_semantics.1 [searchR1, searchR2, searchR3] "sword, warhammer"
    (by decide)

/-! ## C7 and C8: updateMiniature -/

theorem applyUpdates_eq (u : MiniatureUpdates) (now : String) (r : Miniature) :
    applyUpdates u now r =
      { id := r.id, game := u.game.getD r.game, name := u.name.getD r.name,
        amount := u.amount.getD r.amount, painted := u.painted.getD r.painted,
        keywords := u.keywords.getD r.keywords,
        embedding := (match u.embedding with | some v => some v | none => r.embedding),
        image_data := u.image_data.getD r.image_data,
        created_at := r.created_at, updated_at := now } := by
  obtain ⟨g, n, a, p, k, e, i⟩ := u
  cases g <;> cases n <;> cases a <;> cases p <;> cases k <;> cases e <;> cases i <;> rfl

theorem applyUpdates_id (u : MiniatureUpdates) (now : String) (r : Miniature) :
    (applyUpdates u now r).id = r.id := by
  rw [applyUpdates_eq]

theorem applyUpdates_updated_at (u : MiniatureUpdates) (now : String) (r : Miniature) :
    (applyUpdates u now r).updated_at = now := by
  rw [applyUpdates_eq]

theorem find_update (id : String) (u : MiniatureUpdates) (now : String)
    (db : List Miniature) :
    (db.map (fun r => if r.id = id then applyUpdates u now r else r)).find?
        (fun r => r.id == id)
      = (db.find? (fun r => r.id == id)).map (applyUpdates u now) := by
  induction db with
  | nil => rfl
  | cons r rest ih =>
    by_cases h : r.id = id
    · rw [List.map_cons, if_pos h,
        List.find?_cons_of_pos _ (by simp [applyUpdates_id, h]),
        List.find?_cons_of_pos _ (by simp [h]), Option.map_some']
    · rw [List.map_cons, if_neg h,
        List.find?_cons_of_neg _ (by simp [h]),
        List.find?_cons_of_neg _ (by simp [h]), ih]

/-- Counterexample to C7 as stated: an update whose call-time timestamp
equals the record's current updated_at (two mutations within the same
millisecond) leaves updated_at equal to its prior value, not strictly
greater. -/
theorem update_monotonicity_cex :
    getMiniature "a" demoState.db = some demoRow ∧
    getMiniature "a"
        (updateMiniature "2024-01-01T00:00:00.000Z" "a" {} demoState).db
      = some demoRow ∧
    tsLt demoRow.updated_at demoRow.updated_at = false := by decide

/-- C7 (amended): update(id, fields) on an existing record sets the record's
updated_at to the call-time timestamp; the new value is strictly greater
than the prior one whenever the call-time timestamp is strictly greater
(i.e. whenever the clock advanced since the previous mutation). -/
theorem update_refreshes_timestamp (now id : String) (u : MiniatureUpdates)
    (s : AppState) (r : Miniature) (h : getMiniature id s.db = some r) :
    getMiniature id (updateMiniature now id u s).db = some (applyUpdates u now r) ∧
    (applyUpdates u now r).updated_at = now ∧
    (tsLt r.updated_at now = true →
      tsLt r.updated_at (applyUpdates u now r).updated_at = true) := by
  refine ⟨?_, applyUpdates_updated_at u now r, ?_⟩
  · have h1 : (updateMiniature now id u s).db
        = s.db.map (fun x => if x.id = id then applyUpdates u now x else x) := rfl
    unfold getMiniature at h ⊢
    rw [h1, find_update, h, Option.map_some']
  · intro hlt
    rw [applyUpdates_updated_at]
    exact hlt

/-- Closed instance of C7 (amended): updating the demonstration record with
a later timestamp stores that timestamp, strictly greater than the prior
one. -/
theorem update_refreshes_timestamp_witness :
    getMiniature "a"
        (updateMiniature "2025-06-01T00:00:00.000Z" "a" {} demoState).db
      = some (applyUpdates {} "2025-06-01T00:00:00.000Z" demoRow) ∧
    (applyUpdates {} "2025-06-01T00:00:00.000Z" demoRow).updated_at
      = "2025-06-01T00:00:00.000Z" ∧
    tsLt demoRow.updated_at
        (applyUpdates {} "2025-06-01T00:00:00.000Z" demoRow).updated_at = true := by
  have h := update_refreshes_timestamp "2025-06-01T00:00:00.000Z" "a" {}
    demoState demoRow (by decide)
  exact ⟨h.1, h.2.1, h.2.2 (by decide)⟩

/-- C8: update(id, partialFields) rewrites exactly the rows with the given
id; the rewritten row keeps id and created_at, gets each supplied column's
value and keeps each unsupplied column, and gets updated_at = now; every
row with a different id is still present unchanged; and a call supplying
zero fields changes nothing except updated_at. -/
theorem update_frame (now id : String) (u : MiniatureUpdates) (s : AppState) :
    (updateMiniature now id u s).db
      = s.db.map (fun r => if r.id = id then applyUpdates u now r else r) ∧
    (∀ r, applyUpdates u now r =
      { id := r.id, game := u.game.getD r.game, name := u.name.getD r.name,
        amount := u.amount.getD r.amount, painted := u.painted.getD r.painted,
        keywords := u.keywords.getD r.keywords,
        embedding := (match u.embedding with | some v => some v | none => r.embedding),
        image_data := u.image_data.getD r.image_data,
        created_at := r.created_at, updated_at := now }) ∧
    (∀ r ∈ s.db, r.id ≠ id → r ∈ (updateMiniature now id u s).db) ∧
    (u = {} → ∀ r, applyUpdates u now r = { r with updated_at := now }) := by
  refine ⟨rfl, fun r => applyUpdates_eq u now r, ?_, ?_⟩
  · intro r hr hne
    have h1 : (updateMiniature now id u s).db
        = s.db.map (fun x => if x.id = id then applyUpdates u now x else x) := rfl
    rw [h1]
    exact List.mem_map.mpr ⟨r, hr, if_neg hne⟩
  · rintro rfl r
    rfl

/-- Closed instance of C8: an update addressed to an absent id leaves the
demonstration row in place, and the zero-field update only bumps
updated_at. -/
theorem update_frame_witness :
    demoRow ∈ (updateMiniature "T" "zzz" {} demoState).db ∧
    applyUpdates {} "T" demoRow = { demoRow with updated_at := "T" } := by
  have h := update_frame "T" "zzz" ({} : MiniatureUpdates) demoState
  exact ⟨h.2.2.1 demoRow (by decide) (by decide), h.2.2.2 rfl demoRow⟩

/-- Closed instance of C10: inserting an entry with amount 0 into an empty
temporary database stores a row with amount 0. -/
theorem amount_defaulting_divergence_witness :
    ∃ r, (insertEntryInto [] (.obj { id := some "z", amount := some (0 : Int) })
        "u" "T").toOption.getD [] = [] ++ [r] ∧ r.amount = 0 := by
  obtain ⟨r, hr, ha⟩ := amount_defaulting_divergence.2.2.1 []
    { id := some "z", amount := some (0 : Int) } "u" "T"
    ((insertEntryInto [] (.obj { id := some "z", amount := some (0 : Int) })
      "u" "T").toOption.getD []) rfl rfl
  exact ⟨r, hr, ha⟩

end Minishelf
